import Mathlib

/-!
Shallow embedding of the quark multi-platform image synchronization core
(internal/sync, internal/registry, internal/reference, sdk/sync) and proofs
about its specified properties.

Go strings are modelled as Lean `String` (character lists); Go maps are
modelled as association lists quantified over arbitrary iteration orders;
fallible Go calls are modelled with `Except`; network effects are modelled
by an explicit trace of operations performed against the remote registries.
-/

namespace Quark

/-! ## Go string helpers -/

/-- Split a character list at the first occurrence of a separator.
Returns the part strictly before and strictly after the separator,
or none if the separator does not occur.  Models the combination of
strings.Index and slicing used in the Go source. -/
def splitFirstAt (sep : Char) : List Char → Option (List Char × List Char)
  | [] => none
  | c :: rest =>
    if c = sep then some ([], rest)
    else
      match splitFirstAt sep rest with
      | some (l, r) => some (c :: l, r)
      | none => none

/-- strings.SplitN(s, sep, 2) from the Go standard library for a
one-character separator: a list of one element (the whole string) when the
separator is absent, and the two parts around its first occurrence
otherwise. -/
def goSplitN2 (s : String) (sep : Char) : List String :=
  match splitFirstAt sep s.toList with
  | some (l, r) => [l.asString, r.asString]
  | none => [s]

/-- strings.Index(s, c) ≠ -1 for a one-character needle: does the
character occur in the string? -/
def goContainsChar (s : String) (c : Char) : Bool :=
  s.toList.contains c

/-- Helper for stripTag: walks the REVERSED character list of the
reference (the backward scan in the Go source).  Stops with the remaining
(reversed) prefix at the first ':' found, or gives up at the first '/'
or at the start of the string. -/
def stripScanBack : List Char → Option (List Char)
  | [] => none
  | c :: rest =>
    if c = ':' then some rest
    else if c = '/' then none
    else stripScanBack rest

/-- stripTag from internal/sync/sync.go: removes a trailing "@digest"
suffix (cutting at the first '@'), otherwise scans backwards from the end
and removes a trailing ":tag" suffix unless a '/' is met first (so a
":port" in the host is left alone); returns the input unchanged when
neither applies. -/
def stripTag (imageRef : String) : String :=
  match splitFirstAt '@' imageRef.toList with
  | some (l, _) => l.asString
  | none =>
    match stripScanBack imageRef.toList.reverse with
    | some r => r.reverse.asString
    | none => imageRef

/-! ## OCI data model (go-containerregistry v1 types, restricted to what
the sync core uses) -/

/-- Manifest media types; desc.MediaType.IsIndex() distinguishes an image
index (multi-platform) from a single-platform manifest. -/
inductive MediaType where
  | dockerManifestList
  | ociImageIndex
  | dockerManifest
  | ociManifest
deriving DecidableEq

def MediaType.isIndex : MediaType → Bool
  | .dockerManifestList => true
  | .ociImageIndex => true
  | .dockerManifest => false
  | .ociManifest => false

/-- remote.Descriptor as used by SyncImage: only the media type drives the
topology branch. -/
structure Descriptor where
  mediaType : MediaType
  digest : String
deriving DecidableEq

/-- v1.Image: an opaque in-memory content handle; `content` stands for the
serialized manifest bytes. -/
structure Image where
  content : String
deriving DecidableEq

/-- v1.Image.Digest(): the digest of the image's serialized content — a
deterministic pure function of the in-memory handle.  The concrete
encoding stands in for SHA-256 hashing; no theorem relies on any
cryptographic property, only on digest being a function of content. -/
def Image.digestOf (img : Image) : String :=
  "sha256:" ++ img.content

/-- v1.Platform inside an index manifest descriptor. -/
structure PlatformDesc where
  os : String
  architecture : String
deriving DecidableEq

/-- An entry of an index manifest as fetched from the source registry
(desc.Platform may be absent, desc.Digest is the platform digest). -/
structure ManifestDesc where
  platform : Option PlatformDesc
  digest : String
deriving DecidableEq

/-- v1.IndexManifest: the parsed manifest list of a source image index. -/
structure IndexManifest where
  manifests : List ManifestDesc
deriving DecidableEq

/-- An entry appended to the outgoing index by mutate.AppendManifests
(mutate.IndexAddendum: the image plus its platform descriptor). -/
structure IndexEntry where
  image : Image
  os : String
  architecture : String
deriving DecidableEq

/-- The assembled outgoing image index (manifest list). -/
structure ImageIndex where
  mediaType : MediaType
  entries : List IndexEntry
deriving DecidableEq

/-- mutate.IndexMediaType(empty.Index, types.DockerManifestList): the
empty index skeleton PushManifestList starts from. -/
def emptyIndexDockerList : ImageIndex :=
  { mediaType := .dockerManifestList, entries := [] }

/-- idx.Digest(): the digest of the serialized index — a deterministic
pure function of the assembled entries (stands in for SHA-256 over the
exact bytes pushed). -/
def ImageIndex.digestOf (idx : ImageIndex) : String :=
  "sha256:" ++
    (idx.entries.map
      (fun e => e.os ++ "/" ++ e.architecture ++ "@" ++ e.image.content)).foldl
      (fun acc s => acc ++ ";" ++ s) ""

/-! ## Remote registry oracle and network traces -/

/-- Error returned by a remote operation: either an HTTP transport error
carrying a status code (transport.Error in go-containerregistry, matched
by errors.As in CheckExists) or any other failure (network, auth, ...). -/
inductive RemoteError where
  | transport (statusCode : Nat)
  | network (msg : String)
deriving DecidableEq

/-- The behavior of one remote registry endpoint: what each network verb
returns for each reference.  Quantifying theorems over this structure
models arbitrary registry responses. -/
structure RemoteRegistry where
  get : String → Except RemoteError Descriptor
  image : String → Except RemoteError Image
  index : String → Except RemoteError IndexManifest
  write : String → Image → Except RemoteError Unit
  writeIndex : String → ImageIndex → Except RemoteError Unit

/-- One network operation performed during a sync.  In the sync flows the
source registry is only ever read and the destination registry is only
ever written, so the verb itself identifies the endpoint. -/
inductive NetOp where
  | read (ref : String)
  | write (ref : String)
deriving DecidableEq

/-- Error kinds of the registry client (the wrapped error values of
internal/registry/client.go). -/
inductive ClientErr where
  | parseImageReference
  | parseSourceReference
  | parseDestinationReference
  | parseManifestReference
  | getImage (e : RemoteError)
  | getImageIndex (e : RemoteError)
  | getSourceImage (e : RemoteError)
  | writeDestination (e : RemoteError)
  | pushManifestList (e : RemoteError)
  | existence (e : RemoteError)
deriving DecidableEq

/-! ## Registry client (internal/registry/client.go)

name.ParseReference is an external go-containerregistry function; its
success/failure on a given string is modelled by an explicit predicate
`parse` passed to each client operation.  Every client operation returns
its result together with the trace of network operations it performed. -/

namespace Client

/-- Client.GetImage: parse the reference, then remote.Get it. -/
def GetImage (parse : String → Bool) (reg : RemoteRegistry) (imageRef : String) :
    Except ClientErr Descriptor × List NetOp :=
  if parse imageRef then
    match reg.get imageRef with
    | .ok desc => (.ok desc, [.read imageRef])
    | .error e => (.error (.getImage e), [.read imageRef])
  else (.error .parseImageReference, [])

/-- Go map insertion m[k] = v on an association-list model: overwrites the
existing binding for k, otherwise appends a new one. -/
def mapInsert (m : List (String × String)) (k v : String) : List (String × String) :=
  if m.any (fun p => p.1 = k) then
    m.map (fun p => if p.1 = k then (k, v) else p)
  else m ++ [(k, v)]

/-- One iteration of the extraction loop of Client.GetPlatformDigests:
when the index entry carries a platform, store its digest under the key
"os/architecture". -/
def insertPlatformDigest (acc : List (String × String)) (desc : ManifestDesc) :
    List (String × String) :=
  match desc.platform with
  | some p => mapInsert acc (p.os ++ "/" ++ p.architecture) desc.digest
  | none => acc

/-- The extraction loop of Client.GetPlatformDigests over the whole index
manifest. -/
def extractPlatformDigests (manifests : List ManifestDesc) : List (String × String) :=
  manifests.foldl insertPlatformDigest []

/-- Client.GetPlatformDigests: parse, remote.Index, then extract the
platform → digest map from the index manifest. -/
def GetPlatformDigests (parse : String → Bool) (reg : RemoteRegistry) (imageRef : String) :
    Except ClientErr (List (String × String)) × List NetOp :=
  if parse imageRef then
    match reg.index imageRef with
    | .ok idxm => (.ok (extractPlatformDigests idxm.manifests), [.read imageRef])
    | .error e => (.error (.getImageIndex e), [.read imageRef])
  else (.error .parseImageReference, [])

/-- Client.FetchPlatformImage: build "srcRef@digest", parse it, and fetch
that exact image from the source registry. -/
def FetchPlatformImage (parse : String → Bool) (reg : RemoteRegistry)
    (srcRef platformDigest : String) :
    Except ClientErr Image × List NetOp :=
  let srcDigestRef := srcRef ++ "@" ++ platformDigest
  if parse srcDigestRef then
    match reg.image srcDigestRef with
    | .ok img => (.ok img, [.read srcDigestRef])
    | .error e => (.error (.getSourceImage e), [.read srcDigestRef])
  else (.error .parseSourceReference, [])

/-- Client.CopyImage: parse both references, fetch the source image, push
it to the destination, and return the TRUSTED source handle. -/
def CopyImage (parse : String → Bool) (srcReg : RemoteRegistry) (srcRef dstRef : String)
    (dstReg : RemoteRegistry) :
    Except ClientErr Image × List NetOp :=
  if ¬ parse srcRef then (.error .parseSourceReference, [])
  else if ¬ parse dstRef then (.error .parseDestinationReference, [])
  else
    match srcReg.image srcRef with
    | .error e => (.error (.getSourceImage e), [.read srcRef])
    | .ok img =>
      match dstReg.write dstRef img with
      | .error e => (.error (.writeDestination e), [.read srcRef, .write dstRef])
      | .ok _ => (.ok img, [.read srcRef, .write dstRef])

/-- sort.Strings: ascending lexicographic sort of a string list. -/
def sortStrings (l : List String) : List String :=
  l.mergeSort (fun a b => decide (a ≤ b))

/-- The per-platform body of PushManifestList's loop: SplitN the platform
key on "/" with limit 2 and read parts[0] and parts[1].  Reading parts[1]
panics (index out of range) when the key contains no '/'; the panic is
modelled by none. -/
def platformEntry (platform : String) (img : Image) : Option IndexEntry :=
  match goSplitN2 platform '/' with
  | [osName, archName] => some { image := img, os := osName, architecture := archName }
  | _ => none

/-- One iteration of PushManifestList's loop: look the platform's image up
in the map (the unreachable miss is modelled by the Go zero value) and
append it to the index under its platform descriptor. -/
def appendPlatform (platformImages : List (String × Image)) (idx : ImageIndex)
    (platform : String) : Option ImageIndex :=
  (platformEntry platform ((platformImages.lookup platform).getD { content := "" })).map
    (fun entry => { mediaType := idx.mediaType, entries := idx.entries ++ [entry] })

/-- The assembly loop of Client.PushManifestList: collect the platform
keys, sort them, and append each platform's image to the empty index
skeleton in sorted key order.  none models the Go panic on a platform key
without '/'. -/
def assembleIndex (platformImages : List (String × Image)) : Option ImageIndex :=
  (sortStrings (platformImages.map Prod.fst)).foldlM
    (appendPlatform platformImages) emptyIndexDockerList

/-- Client.PushManifestList: parse the destination reference, assemble the
index in sorted platform order, push it, and return the locally computed
digest of the assembled index.  The outer none models the Go panic on a
platform key without '/'. -/
def PushManifestList (parse : String → Bool) (reg : RemoteRegistry) (manifestRef : String)
    (platformImages : List (String × Image)) :
    Option (Except ClientErr String × List NetOp) :=
  if parse manifestRef then
    match assembleIndex platformImages with
    | none => none
    | some idx =>
      match reg.writeIndex manifestRef idx with
      | .error e => some (.error (.pushManifestList e), [.write manifestRef])
      | .ok _ => some (.ok idx.digestOf, [.write manifestRef])
  else some (.error .parseManifestReference, [])

/-- errors.As(err, &transportErr) && transportErr.StatusCode ==
http.StatusNotFound: is this remote error a 404 transport error? -/
def isNotFoundErr (e : RemoteError) : Bool :=
  match e with
  | .transport code => code == 404
  | .network _ => false

/-- Client.CheckExists: (false, nil) exactly for a transport error with
HTTP status 404; any other failure is surfaced as an error; a successful
fetch yields (true, nil). -/
def CheckExists (parse : String → Bool) (reg : RemoteRegistry) (imageRef : String) :
    Except ClientErr Bool × List NetOp :=
  if parse imageRef then
    match reg.get imageRef with
    | .ok _ => (.ok true, [.read imageRef])
    | .error e =>
      if isNotFoundErr e then (.ok false, [.read imageRef])
      else (.error (.existence e), [.read imageRef])
  else (.error .parseImageReference, [])

end Client

/-! ## Retry policy (Client.remoteOptions) -/

/-- The retryable HTTP status codes configured by remoteOptions via
remote.WithRetryStatusCodes: 429, 500, 502, 503, 504. -/
def retryStatusCodes : List Nat := [429, 500, 502, 503, 504]

/-- remote.Backoff parameters (durations in seconds). -/
structure Backoff where
  duration : Nat
  factor : Nat
  steps : Nat
deriving DecidableEq

/-- The backoff configured by remoteOptions via remote.WithRetryBackoff:
initial delay 1s, doubling, at most 5 attempts total. -/
def clientBackoff : Backoff := { duration := 1, factor := 2, steps := 5 }

/-- The registry's response to one attempt of a network call: success or
an HTTP status code. -/
inductive Attempt where
  | ok (d : Descriptor)
  | httpStatus (code : Nat)
deriving DecidableEq

/-- Outcome of a call after the retry layer is done with it. -/
inductive RetryResult where
  | ok (d : Descriptor)
  | failed (code : Nat)
  | noResponse
deriving DecidableEq

/-- Modelled from the spec: the retry loop of the transport configured by
remoteOptions (the loop itself lives in the external go-containerregistry
library; only its configuration is in this repository).  Per the spec's
retry policy, a response whose status is in `codes` is retried while
attempts remain, sleeping `delay`, then `delay * factor`, and so on
between attempts; any other response is surfaced immediately with no
retry.  `responses i` is the registry's answer to attempt i.  Returns the
outcome, the number of attempts made, and the list of delays slept.
Jitter is not modelled (real time). -/
def retryLoop (codes : List Nat) (factor : Nat) (responses : Nat → Attempt) :
    Nat → Nat → Nat → RetryResult × Nat × List Nat
  | _, 0, _ => (.noResponse, 0, [])
  | delay, remaining + 1, i =>
    match responses i with
    | .ok d => (.ok d, 1, [])
    | .httpStatus code =>
      if codes.contains code ∧ 0 < remaining then
        match retryLoop codes factor responses (delay * factor) remaining (i + 1) with
        | (r, n, ds) => (r, n + 1, delay :: ds)
      else (.failed code, 1, [])

/-- One network call as executed under the retry configuration of
remoteOptions: the registry answers attempt i with `responses i`. -/
def retryCall (responses : Nat → Attempt) : RetryResult × Nat × List Nat :=
  retryLoop retryStatusCodes clientBackoff.factor responses
    clientBackoff.duration clientBackoff.steps 0

/-! ## Synchronizer (internal/sync/sync.go) -/

/-- The hardcoded platform allow-list of syncMultiPlatform. -/
def supportedPlatforms : List String := ["linux/amd64", "linux/arm64"]

/-- A Syncer: a source client and a destination client (each modelled by
its remote registry oracle) plus the external reference-parse function
shared by both. -/
structure Syncer where
  parse : String → Bool
  src : RemoteRegistry
  dst : RemoteRegistry

inductive SyncErr where
  | getSourceImage (e : ClientErr)
  | getPlatformDigests (e : ClientErr)
  | fetchPlatform (platform : String) (e : ClientErr)
  | pushManifestList (e : ClientErr)
  | copyImage (e : ClientErr)
deriving DecidableEq

/-- The platform loop of Syncer.syncMultiPlatform, over the platform →
digest entries in the (arbitrary) order the Go map iteration yields them:
skip platforms not on the allow-list, fetch each retained platform image
by digest from the source, and collect the trusted handles. -/
def fetchPlatforms (syncer : Syncer) (srcImage : String) :
    List (String × String) → Except SyncErr (List (String × Image)) × List NetOp
  | [] => (.ok [], [])
  | (platform, dgst) :: rest =>
    if supportedPlatforms.contains platform then
      match Client.FetchPlatformImage syncer.parse syncer.src (stripTag srcImage) dgst with
      | (.error e, t) => (.error (.fetchPlatform platform e), t)
      | (.ok img, t) =>
        match fetchPlatforms syncer srcImage rest with
        | (.error e, t2) => (.error e, t ++ t2)
        | (.ok imgs, t2) => (.ok ((platform, img) :: imgs), t ++ t2)
    else fetchPlatforms syncer srcImage rest

/-- Syncer.syncMultiPlatform: get the platform digests from the source,
fetch each retained platform image by digest, then create and push the
manifest list at the destination.  `reorder` models the unspecified
iteration order of the Go map (theorems quantify over any permutation).
The outer none models the Go panic inherited from PushManifestList. -/
def syncMultiPlatform (syncer : Syncer)
    (reorder : List (String × String) → List (String × String))
    (srcImage dstImage : String) :
    Option (Except SyncErr String × List NetOp) :=
  match Client.GetPlatformDigests syncer.parse syncer.src srcImage with
  | (.error e, t) => some (.error (.getPlatformDigests e), t)
  | (.ok platformDigests, t) =>
    match fetchPlatforms syncer srcImage (reorder platformDigests) with
    | (.error e, t2) => some (.error e, t ++ t2)
    | (.ok platformImages, t2) =>
      match Client.PushManifestList syncer.parse syncer.dst dstImage platformImages with
      | none => none
      | some (.error e, t3) => some (.error (.pushManifestList e), t ++ t2 ++ t3)
      | some (.ok digest, t3) => some (.ok digest, t ++ t2 ++ t3)

/-- Syncer.syncSinglePlatform: copy the image and return the digest of the
TRUSTED source handle (never read back from the destination). -/
def syncSinglePlatform (syncer : Syncer) (srcImage dstImage : String) :
    Except SyncErr String × List NetOp :=
  match Client.CopyImage syncer.parse syncer.src srcImage dstImage syncer.dst with
  | (.error e, t) => (.error (.copyImage e), t)
  | (.ok img, t) => (.ok img.digestOf, t)

/-- Syncer.SyncImage: fetch the source descriptor, then branch on whether
the media type denotes an index (multi-platform) or a single image. -/
def SyncImage (syncer : Syncer)
    (reorder : List (String × String) → List (String × String))
    (srcImage dstImage : String) :
    Option (Except SyncErr String × List NetOp) :=
  match Client.GetImage syncer.parse syncer.src srcImage with
  | (.error e, t) => some (.error (.getSourceImage e), t)
  | (.ok desc, t) =>
    if desc.mediaType.isIndex then
      match syncMultiPlatform syncer reorder srcImage dstImage with
      | none => none
      | some (r, t2) => some (r, t ++ t2)
    else
      match syncSinglePlatform syncer srcImage dstImage with
      | (r, t2) => some (r, t ++ t2)

/-! ## SDK sync builder (sdk/sync.go) -/

/-- The sdk Image fields relevant to building a sync. -/
structure SdkImage where
  name : String
  domain : String
  version : String
  digest : String
deriving DecidableEq

/-- The sdk error values returned by SyncBuilder.Build.  The digest error
carries the image name interpolated by fmt.Errorf. -/
inductive SdkErr where
  | syncSourceRequired
  | syncSourceDigestRequired (imageName : String)
  | syncDestinationRequired
deriving DecidableEq

/-- The Sync under construction by a SyncBuilder. -/
structure SyncSpec where
  sourceImage : Option SdkImage
  destImage : Option SdkImage
  platforms : List String
deriving DecidableEq

/-- The parts of the sdk Plan that Build touches: the recorded sync
operations (plan.syncs and plan.operations move together). -/
structure SdkPlan where
  syncs : List SyncSpec
deriving DecidableEq

def PlatformAMD64 : String := "linux/amd64"

def PlatformARM64 : String := "linux/arm64"

/-- SyncBuilder.Build: validates the sync (source present, source digest
present, destination present), defaults the platforms, and appends the
sync to the plan.  Returns the updated plan and the recorded sync.  Note
the digest check happens here, before the plan ever executes — hence
before any network call. -/
def SyncBuilder.Build (plan : SdkPlan) (sync : SyncSpec) :
    Except SdkErr (SdkPlan × SyncSpec) :=
  match sync.sourceImage with
  | none => .error .syncSourceRequired
  | some srcImg =>
    if srcImg.digest = "" then .error (.syncSourceDigestRequired srcImg.name)
    else
      match sync.destImage with
      | none => .error .syncDestinationRequired
      | some _ =>
        let sync :=
          if sync.platforms.isEmpty then
            { sync with platforms := [PlatformAMD64, PlatformARM64] }
          else sync
        .ok ({ plan with syncs := plan.syncs ++ [sync] }, sync)

/-! ## Reference model (internal/reference)

The repository's Parse delegates to two external libraries:
opencontainers/go-digest for digest parsing and distribution/reference for
normalized-name parsing.  Those two helpers are modelled below from the
spec's reference grammar; Parse itself is translated from the source. -/

def isLowerHexDigit (c : Char) : Bool :=
  (('0' ≤ c ∧ c ≤ '9') ∨ ('a' ≤ c ∧ c ≤ 'f'))

def isLowerAlphaNum (c : Char) : Bool :=
  (('0' ≤ c ∧ c ≤ '9') ∨ ('a' ≤ c ∧ c ≤ 'z'))

def isAlphaNum (c : Char) : Bool :=
  (('0' ≤ c ∧ c ≤ '9') ∨ ('a' ≤ c ∧ c ≤ 'z') ∨ ('A' ≤ c ∧ c ≤ 'Z'))

/-- Modelled from the spec: go-digest's Parse succeeds on an
algorithm-prefixed digest string — "sha256:" followed by exactly 64
(lowercase) hex characters. -/
def digestParseOk (s : String) : Bool :=
  match splitFirstAt ':' s.toList with
  | some (alg, hex) =>
    alg.asString = "sha256" ∧ hex.length = 64 ∧ hex.all isLowerHexDigit
  | none => false

/-- Split a character list on every occurrence of a separator (the
separators are dropped; empty groups are kept). -/
def splitOnChar (sep : Char) : List Char → List (List Char)
  | [] => [[]]
  | c :: rest =>
    if c = sep then [] :: splitOnChar sep rest
    else
      match splitOnChar sep rest with
      | [] => [[c]]
      | g :: gs => (c :: g) :: gs

/-- A path component of a repository path: nonempty lowercase
alphanumerics possibly separated by '.', '_' or '-', starting and ending
with an alphanumeric. -/
def pathComponentOk (comp : List Char) : Bool :=
  comp ≠ [] ∧
    comp.all (fun c => isLowerAlphaNum c ∨ c = '.' ∨ c = '_' ∨ c = '-') ∧
    isLowerAlphaNum (comp.headD '.') ∧ isLowerAlphaNum (comp.getLastD '.')

def pathOk (path : List Char) : Bool :=
  (splitOnChar '/' path).all pathComponentOk

/-- A tag: up to 128 word characters, '.' or '-', starting with a word
character. -/
def tagOk (tag : List Char) : Bool :=
  tag ≠ [] ∧ tag.length ≤ 128 ∧
    tag.all (fun c => isAlphaNum c ∨ c = '_' ∨ c = '.' ∨ c = '-') ∧
    (isAlphaNum (tag.headD '.') ∨ tag.headD '.' = '_')

/-- A registry domain: host name characters, optionally with a port. -/
def domainOk (dom : List Char) : Bool :=
  dom ≠ [] ∧ dom.all (fun c => isAlphaNum c ∨ c = '.' ∨ c = '-' ∨ c = ':')

/-- A normalized named reference: the outcome of
distribution/reference.ParseNormalizedNamed. -/
structure NamedRef where
  domain : String
  path : String
  tag : Option String
  digest : Option String
deriving DecidableEq

/-- Modelled from the spec: the domain-splitting rule of normalized-name
parsing.  The part before the first '/' is a registry domain only when it
contains a '.' or a ':' or is "localhost"; otherwise the domain defaults
to "docker.io", and a docker.io path without a '/' is prefixed with
"library/" (official images). -/
def splitDockerDomain (s : List Char) : List Char × List Char :=
  let (domain, remainder) :=
    match splitFirstAt '/' s with
    | none => ("docker.io".toList, s)
    | some (first, rest) =>
      if first.contains '.' ∨ first.contains ':' ∨ first.asString = "localhost" then
        (first, rest)
      else ("docker.io".toList, s)
  if domain = "docker.io".toList ∧ ¬ remainder.contains '/' then
    (domain, "library/".toList ++ remainder)
  else (domain, remainder)

/-- Modelled from the spec: distribution/reference.ParseNormalizedNamed —
parses "[domain/]path[:tag][@digest]", defaulting the domain to docker.io
and the repository namespace to "library", and rejecting empty input and
characters illegal in the registry/repository/tag grammar. -/
def parseNormalizedNamed (raw : String) : Option NamedRef :=
  let cs := raw.toList
  let (beforeDigest, dgst) :=
    match splitFirstAt '@' cs with
    | some (l, r) => (l, some r)
    | none => (cs, none)
  let (domain, remainder) := splitDockerDomain beforeDigest
  let (path, tag) :=
    match splitFirstAt ':' remainder with
    | some (l, r) => (l, some r)
    | none => (remainder, none)
  if domainOk domain && pathOk path && tag.all tagOk &&
      dgst.all (fun d => digestParseOk d.asString) then
    some
      { domain := domain.asString, path := path.asString,
        tag := tag.map List.asString, digest := dgst.map List.asString }
  else none

/-- reference.TagNameOnly: add the default tag "latest" when the reference
carries neither a tag nor a digest. -/
def tagNameOnly (nn : NamedRef) : NamedRef :=
  match nn.tag, nn.digest with
  | none, none => { nn with tag := some "latest" }
  | _, _ => nn

inductive RefErr where
  | invalidImageReference
deriving DecidableEq

/-- The parsed image reference of internal/reference. -/
structure ImageReference where
  protocol : String
  digest : String
  tag : String
  explicitTag : String
  path : String
  domain : String
deriving DecidableEq

/-- Parse from internal/reference: try a digest-only parse (as given, then
with "sha256:" prepended), yielding a bare digest reference; otherwise
parse as a normalized named reference, record the explicit tag, apply
default-tag normalization, and extract domain/path/tag/digest. -/
def Parse (rawRef : String) : Except RefErr ImageReference :=
  if digestParseOk rawRef then
    .ok { protocol := "", digest := rawRef, tag := "", explicitTag := "",
          path := "", domain := "" }
  else if digestParseOk ("sha256:" ++ rawRef) then
    .ok { protocol := "", digest := "sha256:" ++ rawRef, tag := "",
          explicitTag := "", path := "", domain := "" }
  else
    match parseNormalizedNamed rawRef with
    | none => .error .invalidImageReference
    | some nn =>
      let explicitTag := (nn.tag).getD ""
      let nn := tagNameOnly nn
      .ok { protocol := "", digest := (nn.digest).getD "",
            tag := (nn.tag).getD "", explicitTag := explicitTag,
            path := nn.path, domain := nn.domain }

/-! ## Concrete registry oracles used in closed instantiations -/

/-- A registry oracle answering every get with a 404 transport error. -/
def regNotFound : RemoteRegistry :=
  { get := fun _ => .error (.transport 404)
    image := fun _ => .error (.network "unreachable")
    index := fun _ => .error (.network "unreachable")
    write := fun _ _ => .error (.network "unreachable")
    writeIndex := fun _ _ => .error (.network "unreachable") }

/-- A registry oracle failing every get with a non-404 network error. -/
def regDown : RemoteRegistry :=
  { get := fun _ => .error (.network "connection refused")
    image := fun _ => .error (.network "connection refused")
    index := fun _ => .error (.network "connection refused")
    write := fun _ _ => .error (.network "connection refused")
    writeIndex := fun _ _ => .error (.network "connection refused") }

/-- An all-successful source registry oracle for concrete runs: every
fetch returns an image whose content records the fetched reference. -/
def srcAllOk : RemoteRegistry :=
  { get := fun _ => .ok { mediaType := .dockerManifestList, digest := "sha256:idx" }
    image := fun ref => .ok { content := ref }
    index := fun _ => .ok { manifests :=
      [ { platform := some { os := "linux", architecture := "amd64" },
          digest := "sha256:d1" },
        { platform := some { os := "linux", architecture := "arm64" },
          digest := "sha256:d2" },
        { platform := some { os := "linux", architecture := "386" },
          digest := "sha256:d3" },
        { platform := some { os := "windows", architecture := "amd64" },
          digest := "sha256:d4" } ] }
    write := fun _ _ => .ok ()
    writeIndex := fun _ _ => .ok () }

/-- A source registry oracle whose arm64 platform fetch fails. -/
def srcArmBroken : RemoteRegistry :=
  { srcAllOk with
    image := fun ref =>
      if ref = "src/app@sha256:d2" then .error (.network "timeout")
      else .ok { content := ref } }

/-- A source registry serving a single-platform image of fixed content. -/
def srcSingle : RemoteRegistry :=
  { get := fun _ => .ok { mediaType := .dockerManifest, digest := "sha256:m" }
    image := fun _ => .ok { content := "C" }
    index := fun _ => .error (.network "not an index")
    write := fun _ _ => .error (.network "source is read-only here")
    writeIndex := fun _ _ => .error (.network "source is read-only here") }

/-- An honest destination registry: writes succeed, read-backs are sane. -/
def dstHonest : RemoteRegistry :=
  { get := fun _ => .ok { mediaType := .dockerManifest, digest := "sha256:honest" }
    image := fun _ => .error (.network "no read-back")
    index := fun _ => .error (.network "no read-back")
    write := fun _ _ => .ok ()
    writeIndex := fun _ _ => .ok () }

/-- A tampered destination registry: writes succeed but every read-back
response is altered to report wrong content and digests. -/
def dstTampered : RemoteRegistry :=
  { get := fun _ => .ok { mediaType := .ociImageIndex, digest := "sha256:TAMPERED" }
    image := fun _ => .ok { content := "TAMPERED" }
    index := fun _ => .ok { manifests := [] }
    write := fun _ _ => .ok ()
    writeIndex := fun _ _ => .ok () }

/-! ## Helper lemmas about the string scanners -/

theorem splitFirstAt_eq_none {sep : Char} {l : List Char} (h : sep ∉ l) :
    splitFirstAt sep l = none := by
  induction l with
  | nil => rfl
  | cons c rest ih =>
    simp only [List.mem_cons, not_or] at h
    simp only [splitFirstAt]
    rw [if_neg (fun hc => h.1 hc.symm), ih h.2]

theorem splitFirstAt_append {sep : Char} {pre : List Char} (h : sep ∉ pre)
    (suf : List Char) :
    splitFirstAt sep (pre ++ sep :: suf) = some (pre, suf) := by
  induction pre with
  | nil => simp [splitFirstAt]
  | cons c rest ih =>
    simp only [List.mem_cons, not_or] at h
    simp only [List.cons_append, splitFirstAt, List.append_eq]
    rw [if_neg (fun hc => h.1 hc.symm), ih h.2]

theorem stripScanBack_eq_none {l : List Char} (h : ':' ∉ l) :
    stripScanBack l = none := by
  induction l with
  | nil => rfl
  | cons c rest ih =>
    simp only [List.mem_cons, not_or] at h
    simp only [stripScanBack]
    rw [if_neg (fun hc => h.1 hc.symm)]
    by_cases hc : c = '/'
    · rw [if_pos hc]
    · rw [if_neg hc, ih h.2]

theorem stripScanBack_append {pre : List Char} (h1 : ':' ∉ pre) (h2 : '/' ∉ pre)
    (rest : List Char) :
    stripScanBack (pre ++ ':' :: rest) = some rest := by
  induction pre with
  | nil => simp [stripScanBack]
  | cons c p ih =>
    simp only [List.mem_cons, not_or] at h1 h2
    simp only [List.cons_append, stripScanBack, List.append_eq]
    rw [if_neg (fun hc => h1.1 hc.symm), if_neg (fun hc => h2.1 hc.symm),
      ih h1.2 h2.2]

theorem stripScanBack_slash {pre : List Char} (h1 : ':' ∉ pre) (h2 : '/' ∉ pre)
    (rest : List Char) :
    stripScanBack (pre ++ '/' :: rest) = none := by
  induction pre with
  | nil => simp [stripScanBack]
  | cons c p ih =>
    simp only [List.mem_cons, not_or] at h1 h2
    simp only [List.cons_append, stripScanBack, List.append_eq]
    rw [if_neg (fun hc => h1.1 hc.symm), if_neg (fun hc => h2.1 hc.symm),
      ih h1.2 h2.2]

/-! ## C8: the stripTag helper -/

/-- C8: stripTag removes a trailing "@digest" suffix (cutting at the
first '@') when one is present; otherwise it removes a trailing ":tag"
suffix exactly when the colon occurs after the last '/', and in
particular an input whose colons all precede the last '/' (a ":port" in
the host) is returned unchanged, as is an input with no colon at all;
and it satisfies the three concrete cases of the spec. -/
theorem stripTag_spec :
    stripTag "registry.local:5000/app:v1" = "registry.local:5000/app" ∧
    stripTag "app@sha256:abc" = "app" ∧
    stripTag "app" = "app" ∧
    (∀ a b : List Char, '@' ∉ a →
      stripTag (a ++ '@' :: b).asString = a.asString) ∧
    (∀ s : String, '@' ∉ s.toList → ':' ∉ s.toList → stripTag s = s) ∧
    (∀ a t : List Char, '@' ∉ a ++ ':' :: t → ':' ∉ t → '/' ∉ t →
      stripTag (a ++ ':' :: t).asString = a.asString) ∧
    (∀ a t : List Char, '@' ∉ a ++ '/' :: t → ':' ∉ t → '/' ∉ t →
      stripTag (a ++ '/' :: t).asString = (a ++ '/' :: t).asString) := by
  refine ⟨by decide, by decide, by decide, ?_, ?_, ?_, ?_⟩
  · intro a b ha
    have h1 : splitFirstAt '@' ((a ++ '@' :: b).asString).toList = some (a, b) :=
      splitFirstAt_append ha b
    simp only [stripTag, h1]
  · intro s h1 h2
    have h2r : ':' ∉ s.toList.reverse := by
      simpa using h2
    simp only [stripTag, splitFirstAt_eq_none h1, stripScanBack_eq_none h2r]
  · intro a t hat hct hst
    have h1 : splitFirstAt '@' ((a ++ ':' :: t).asString).toList = none :=
      splitFirstAt_eq_none hat
    have hrev : ((a ++ ':' :: t).asString).toList.reverse =
        t.reverse ++ ':' :: a.reverse := by
      show (a ++ ':' :: t).reverse = t.reverse ++ ':' :: a.reverse
      simp
    have h2 : stripScanBack ((a ++ ':' :: t).asString).toList.reverse =
        some a.reverse := by
      rw [hrev]
      exact stripScanBack_append (by simpa using hct) (by simpa using hst) _
    simp only [stripTag, h1, h2, List.reverse_reverse]
  · intro a t hat hct hst
    have h1 : splitFirstAt '@' ((a ++ '/' :: t).asString).toList = none :=
      splitFirstAt_eq_none hat
    have hrev : ((a ++ '/' :: t).asString).toList.reverse =
        t.reverse ++ '/' :: a.reverse := by
      show (a ++ '/' :: t).reverse = t.reverse ++ '/' :: a.reverse
      simp
    have h2 : stripScanBack ((a ++ '/' :: t).asString).toList.reverse = none := by
      rw [hrev]
      exact stripScanBack_slash (by simpa using hct) (by simpa using hst) _
    simp only [stripTag, h1, h2]

/-- Concrete instantiations discharging stripTag_spec's hypotheses. -/
theorem stripTag_spec_witness :
    stripTag (['a', 'p', 'p'] ++ '@' :: ['s']).asString = ['a', 'p', 'p'].asString ∧
    stripTag "plain" = "plain" ∧
    stripTag (['a', '/', 'b'] ++ ':' :: ['v']).asString = ['a', '/', 'b'].asString ∧
    stripTag (['h', ':', '5', '0', '0', '0'] ++ '/' :: ['a', 'p', 'p']).asString =
      (['h', ':', '5', '0', '0', '0'] ++ '/' :: ['a', 'p', 'p']).asString :=
  ⟨stripTag_spec.2.2.2.1 ['a', 'p', 'p'] ['s'] (by decide),
   stripTag_spec.2.2.2.2.1 "plain" (by decide) (by decide),
   stripTag_spec.2.2.2.2.2.1 ['a', '/', 'b'] ['v'] (by decide) (by decide) (by decide),
   stripTag_spec.2.2.2.2.2.2 ['h', ':', '5', '0', '0', '0'] ['a', 'p', 'p']
     (by decide) (by decide) (by decide)⟩

/-! ## C9: reference parsing round-trip -/

/-- C9: Parse on the concrete references of the spec — "alpine" normalizes
to docker.io/library/alpine:latest, "ghcr.io/sub/image_name" to
ghcr.io/sub/image_name:latest, a valid sha256 digest (with or without the
"sha256:" prefix already present) yields a bare digest reference with
empty domain/path/tag, and the empty string and a string with illegal
characters fail with InvalidReference. -/
theorem Parse_roundTrip :
    Parse "alpine" =
      .ok { protocol := "", digest := "", tag := "latest", explicitTag := "",
            path := "library/alpine", domain := "docker.io" } ∧
    Parse "ghcr.io/sub/image_name" =
      .ok { protocol := "", digest := "", tag := "latest", explicitTag := "",
            path := "sub/image_name", domain := "ghcr.io" } ∧
    Parse "sha256:4b826db5f1f14d1db0b560304f189d4b17798ddce2278b7822c9d32313fe3f50" =
      .ok { protocol := "",
            digest := "sha256:4b826db5f1f14d1db0b560304f189d4b17798ddce2278b7822c9d32313fe3f50",
            tag := "", explicitTag := "", path := "", domain := "" } ∧
    Parse "4b826db5f1f14d1db0b560304f189d4b17798ddce2278b7822c9d32313fe3f50" =
      .ok { protocol := "",
            digest := "sha256:4b826db5f1f14d1db0b560304f189d4b17798ddce2278b7822c9d32313fe3f50",
            tag := "", explicitTag := "", path := "", domain := "" } ∧
    Parse "" = .error .invalidImageReference ∧
    Parse "∞" = .error .invalidImageReference :=
  ⟨rfl, rfl, rfl, rfl, rfl, rfl⟩

/-! ## C7: retry policy -/

theorem retryLoop_attempts_le (codes : List Nat) (factor : Nat)
    (responses : Nat → Attempt) :
    ∀ rem delay i, (retryLoop codes factor responses delay rem i).2.1 ≤ rem := by
  intro rem
  induction rem with
  | zero => intro delay i; simp [retryLoop]
  | succ m ih =>
    intro delay i
    simp only [retryLoop]
    cases responses i with
    | ok d => simp
    | httpStatus code =>
      dsimp only
      by_cases hc : codes.contains code ∧ 0 < m
      · rw [if_pos hc]
        have := ih (delay * factor) (i + 1)
        cases h : retryLoop codes factor responses (delay * factor) m (i + 1) with
        | mk r p =>
          cases p with
          | mk n ds =>
            simp only [h] at this ⊢
            omega
      · rw [if_neg hc]
        simp

theorem retryLoop_attempts_pos (codes : List Nat) (factor : Nat)
    (responses : Nat → Attempt) (rem delay i : Nat) (h : 0 < rem) :
    0 < (retryLoop codes factor responses delay rem i).2.1 := by
  cases rem with
  | zero => omega
  | succ m =>
    simp only [retryLoop]
    cases responses i with
    | ok d => simp
    | httpStatus code =>
      dsimp only
      by_cases hc : codes.contains code ∧ 0 < m
      · rw [if_pos hc]
        cases retryLoop codes factor responses (delay * factor) m (i + 1) with
        | mk r p => cases p with | mk n ds => simp
      · rw [if_neg hc]; simp

theorem retryLoop_delays_exponential (codes : List Nat)
    (responses : Nat → Attempt) :
    ∀ rem delay i, (retryLoop codes 2 responses delay rem i).2.2 =
      (List.range ((retryLoop codes 2 responses delay rem i).2.1 - 1)).map
        (fun j => delay * 2 ^ j) := by
  intro rem
  induction rem with
  | zero => intro delay i; simp [retryLoop]
  | succ m ih =>
    intro delay i
    simp only [retryLoop]
    cases responses i with
    | ok d => simp
    | httpStatus code =>
      dsimp only
      by_cases hc : codes.contains code ∧ 0 < m
      · rw [if_pos hc]
        have hpos := retryLoop_attempts_pos codes 2 responses m (delay * 2) (i + 1) hc.2
        have hd := ih (delay * 2) (i + 1)
        cases h : retryLoop codes 2 responses (delay * 2) m (i + 1) with
        | mk r p =>
          cases p with
          | mk n ds =>
            simp only [h] at hpos hd ⊢
            obtain ⟨k, rfl⟩ : ∃ k, n = k + 1 := ⟨n - 1, by omega⟩
            simp only [Nat.add_sub_cancel] at hd ⊢
            rw [hd, List.range_succ_eq_map, List.map_cons, List.map_map]
            refine congrArg₂ List.cons (by ring) (List.map_congr_left ?_)
            intro j _
            simp [Function.comp]
            ring
      · rw [if_neg hc]
        simp

/-- C7: under the retry configuration of remoteOptions, the response
sequence [429, 500, 200] yields success after exactly 2 retries (3
attempts) with backoff delays 1s then 2s; every call makes at most 5
attempts total; the delays slept always follow exponential backoff
starting at 1s and doubling (1, 2, 4, ...); a first response whose status
is not in {429, 500, 502, 503, 504} fails immediately with no retry and
no delay; and a persistently retryable status exhausts all 5 attempts
with delays 1, 2, 4, 8. -/
theorem retryPolicy_spec :
    (∀ d : Descriptor,
      retryCall
        (fun i => if i = 0 then .httpStatus 429
                  else if i = 1 then .httpStatus 500 else .ok d) =
      (.ok d, 3, [1, 2])) ∧
    (∀ responses : Nat → Attempt, (retryCall responses).2.1 ≤ 5) ∧
    (∀ responses : Nat → Attempt, (retryCall responses).2.2 =
      (List.range ((retryCall responses).2.1 - 1)).map (fun j => 2 ^ j)) ∧
    (∀ (responses : Nat → Attempt) (code : Nat),
      responses 0 = .httpStatus code → retryStatusCodes.contains code = false →
      retryCall responses = (.failed code, 1, [])) ∧
    (∀ code : Nat, retryStatusCodes.contains code = true →
      retryCall (fun _ => .httpStatus code) = (.failed code, 5, [1, 2, 4, 8])) := by
  refine ⟨fun d => rfl, ?_, ?_, ?_, ?_⟩
  · intro responses
    exact retryLoop_attempts_le retryStatusCodes 2 responses 5 1 0
  · intro responses
    have h := retryLoop_delays_exponential retryStatusCodes responses 5 1 0
    simpa [retryCall, clientBackoff] using h
  · intro responses code h0 hcode
    have hm : code ∉ retryStatusCodes := by simpa using hcode
    simp [retryCall, retryLoop, clientBackoff, h0, hm]
  · intro code hcode
    have hm : code ∈ retryStatusCodes := by simpa using hcode
    simp [retryCall, retryLoop, clientBackoff, hm]

/-- Concrete instantiations discharging retryPolicy_spec's hypotheses:
a 403 is surfaced immediately, and a persistent 503 exhausts the 5
attempts. -/
theorem retryPolicy_spec_witness :
    retryCall (fun _ => .httpStatus 403) = (.failed 403, 1, []) ∧
    retryCall (fun _ => .httpStatus 503) = (.failed 503, 5, [1, 2, 4, 8]) :=
  ⟨retryPolicy_spec.2.2.2.1 (fun _ => .httpStatus 403) 403 rfl (by decide),
   retryPolicy_spec.2.2.2.2 503 (by decide)⟩

/-! ## C6: existence-check semantics -/

/-- C6: CheckExists returns (false, nil) if and only if the reference
parses and the registry answers with a transport error carrying HTTP
status 404; a malformed reference yields an error, a successful fetch
yields (true, nil), and any other remote failure yields an error — so
"cannot tell" is never reported as "does not exist". -/
theorem CheckExists_semantics (parse : String → Bool) (reg : RemoteRegistry)
    (ref : String) :
    ((Client.CheckExists parse reg ref).1 = .ok false ↔
      parse ref = true ∧ reg.get ref = .error (.transport 404)) ∧
    (parse ref = false →
      (Client.CheckExists parse reg ref).1 = .error .parseImageReference) ∧
    (∀ d, parse ref = true → reg.get ref = .ok d →
      (Client.CheckExists parse reg ref).1 = .ok true) ∧
    (∀ e, parse ref = true → reg.get ref = .error e → e ≠ .transport 404 →
      (Client.CheckExists parse reg ref).1 = .error (.existence e)) := by
  refine ⟨?_, ?_, ?_, ?_⟩
  · constructor
    · intro h
      cases hp : parse ref with
      | false => simp [Client.CheckExists, hp] at h
      | true =>
        refine ⟨rfl, ?_⟩
        cases hg : reg.get ref with
        | ok d => simp [Client.CheckExists, hp, hg] at h
        | error e =>
          cases e with
          | transport code =>
            by_cases hc : code = 404
            · subst hc; rfl
            · simp [Client.CheckExists, hp, hg, Client.isNotFoundErr, hc] at h
          | network msg => simp [Client.CheckExists, hp, hg, Client.isNotFoundErr] at h
    · rintro ⟨hp, hg⟩
      simp [Client.CheckExists, hp, hg, Client.isNotFoundErr]
  · intro hp
    simp [Client.CheckExists, hp]
  · intro d hp hg
    simp [Client.CheckExists, hp, hg]
  · intro e hp hg hne
    cases e with
    | transport code =>
      have hc : code ≠ 404 := fun h => hne (by rw [h])
      simp [Client.CheckExists, hp, hg, Client.isNotFoundErr, hc]
    | network msg => simp [Client.CheckExists, hp, hg, Client.isNotFoundErr]

/-- Concrete instantiations discharging CheckExists_semantics's
hypotheses: a 404 yields (false, nil), while a network failure on the
same reference yields an error. -/
theorem CheckExists_semantics_witness :
    (Client.CheckExists (fun _ => true) regNotFound "ghcr.io/a/b:v1").1 =
      .ok false ∧
    (Client.CheckExists (fun _ => true) regDown "ghcr.io/a/b:v1").1 =
      .error (.existence (.network "connection refused")) ∧
    (Client.CheckExists (fun _ => false) regDown "???").1 =
      .error .parseImageReference :=
  ⟨(CheckExists_semantics (fun _ => true) regNotFound "ghcr.io/a/b:v1").1.mpr
      ⟨rfl, rfl⟩,
   (CheckExists_semantics (fun _ => true) regDown "ghcr.io/a/b:v1").2.2.2
      (.network "connection refused") rfl rfl (by simp),
   (CheckExists_semantics (fun _ => false) regDown "???").2.1 rfl⟩

/-! ## C10: PushManifestList's platform-key precondition -/

theorem splitFirstAt_isSome {sep : Char} {l : List Char} (h : sep ∈ l) :
    ∃ pr, splitFirstAt sep l = some pr := by
  induction l with
  | nil => simp at h
  | cons c rest ih =>
    by_cases hc : c = sep
    · exact ⟨([], rest), by simp [splitFirstAt, hc]⟩
    · have hmem : sep ∈ rest := by
        rcases List.mem_cons.mp h with h1 | h1
        · exact absurd h1.symm hc
        · exact h1
      obtain ⟨⟨a, b⟩, hab⟩ := ih hmem
      exact ⟨(c :: a, b), by simp [splitFirstAt, hc, hab]⟩

theorem platformEntry_isSome {k : String} (h : '/' ∈ k.toList) (img : Image) :
    ∃ e, Client.platformEntry k img = some e := by
  obtain ⟨⟨a, b⟩, hab⟩ := splitFirstAt_isSome h
  have hab2 : splitFirstAt '/' k.data = some (a, b) := hab
  exact ⟨{ image := img, os := a.asString, architecture := b.asString },
    by simp [Client.platformEntry, goSplitN2, hab2]⟩

theorem platformEntry_eq_none {k : String} (h : '/' ∉ k.toList) (img : Image) :
    Client.platformEntry k img = none := by
  have h2 : splitFirstAt '/' k.data = none := splitFirstAt_eq_none h
  simp [Client.platformEntry, goSplitN2, h2]

theorem foldlM_appendPlatform_isSome (m : List (String × Image)) :
    ∀ (l : List String) (idx : ImageIndex), (∀ p ∈ l, '/' ∈ p.toList) →
      ∃ r, l.foldlM (Client.appendPlatform m) idx = some r := by
  intro l
  induction l with
  | nil => intro idx _; exact ⟨idx, rfl⟩
  | cons a t ih =>
    intro idx h
    obtain ⟨e, he⟩ :=
      platformEntry_isSome (h a (by simp)) ((m.lookup a).getD { content := "" })
    obtain ⟨r, hr⟩ :=
      ih { mediaType := idx.mediaType, entries := idx.entries ++ [e] }
        (fun p hp => h p (by simp [hp]))
    exact ⟨r, by simp [List.foldlM_cons, Client.appendPlatform, he, hr]⟩

theorem foldlM_appendPlatform_eq_none (m : List (String × Image)) :
    ∀ (l : List String) (idx : ImageIndex), (∃ p ∈ l, '/' ∉ p.toList) →
      l.foldlM (Client.appendPlatform m) idx = none := by
  intro l
  induction l with
  | nil =>
    rintro idx ⟨p, hp, _⟩
    simp at hp
  | cons a t ih =>
    rintro idx ⟨p, hp, hslash⟩
    rcases List.mem_cons.mp hp with rfl | hmem
    · simp [List.foldlM_cons, Client.appendPlatform, platformEntry_eq_none hslash]
    · cases hstep : Client.appendPlatform m idx a with
      | none => simp [List.foldlM_cons, hstep]
      | some b => simp [List.foldlM_cons, hstep, ih b ⟨p, hmem, hslash⟩]

theorem assembleIndex_isSome {m : List (String × Image)}
    (h : ∀ k ∈ m.map Prod.fst, '/' ∈ k.toList) :
    ∃ idx, Client.assembleIndex m = some idx := by
  apply foldlM_appendPlatform_isSome
  intro p hp
  exact h p (by simpa [Client.sortStrings] using hp)

theorem assembleIndex_eq_none {m : List (String × Image)}
    (h : ∃ k ∈ m.map Prod.fst, '/' ∉ k.toList) :
    Client.assembleIndex m = none := by
  apply foldlM_appendPlatform_eq_none
  obtain ⟨k, hk, hs⟩ := h
  exact ⟨k, by simpa [Client.sortStrings] using hk, hs⟩

theorem mapInsert_keys {m : List (String × String)} {k v k2 : String}
    (h : k2 ∈ (Client.mapInsert m k v).map Prod.fst) :
    k2 = k ∨ k2 ∈ m.map Prod.fst := by
  unfold Client.mapInsert at h
  split at h
  · simp only [List.map_map, List.mem_map, Function.comp] at h
    obtain ⟨p, hp, hfp⟩ := h
    by_cases hpk : p.1 = k
    · left
      rw [← hfp]
      simp [hpk]
    · right
      rw [← hfp]
      simp only [if_neg hpk]
      exact List.mem_map.mpr ⟨p, hp, rfl⟩
  · simp only [List.map_append, List.mem_append, List.map_cons, List.map_nil,
      List.mem_singleton] at h
    rcases h with h | h
    · right; exact h
    · left; exact h

theorem slash_mem_platform_key (osName arch : String) :
    '/' ∈ (osName ++ "/" ++ arch).toList := by
  have : (osName ++ "/" ++ arch).data = osName.data ++ '/' :: arch.data := by
    simp [String.data_append]
  show '/' ∈ (osName ++ "/" ++ arch).data
  rw [this]
  simp

theorem extractPlatformDigests_keys_slash (manifests : List ManifestDesc) :
    ∀ k ∈ (Client.extractPlatformDigests manifests).map Prod.fst, '/' ∈ k.toList := by
  have general : ∀ (ms : List ManifestDesc) (acc : List (String × String)),
      (∀ k ∈ acc.map Prod.fst, '/' ∈ k.toList) →
      ∀ k ∈ (ms.foldl Client.insertPlatformDigest acc).map Prod.fst, '/' ∈ k.toList := by
    intro ms
    induction ms with
    | nil => intro acc hacc; simpa using hacc
    | cons d rest ih =>
      intro acc hacc
      simp only [List.foldl_cons]
      apply ih
      intro k hk
      unfold Client.insertPlatformDigest at hk
      cases hd : d.platform with
      | none => rw [hd] at hk; exact hacc k hk
      | some p =>
        rw [hd] at hk
        rcases mapInsert_keys hk with rfl | hmem
        · exact slash_mem_platform_key p.os p.architecture
        · exact hacc k hmem
  exact general manifests [] (by simp)

/-- C10: PushManifestList is total only under the precondition that every
platform key contains a '/': a key without '/' makes the loop's
parts[1] access panic (modelled by none), keys all containing '/' never
panic, and every key produced by GetPlatformDigests' extraction has the
form "os/architecture" and hence contains '/'. -/
theorem pushManifestList_key_precondition (parse : String → Bool)
    (reg : RemoteRegistry) (ref : String) :
    (∀ platformImages : List (String × Image), parse ref = true →
      (∃ k ∈ platformImages.map Prod.fst, '/' ∉ k.toList) →
      Client.PushManifestList parse reg ref platformImages = none) ∧
    (∀ platformImages : List (String × Image),
      (∀ k ∈ platformImages.map Prod.fst, '/' ∈ k.toList) →
      Client.PushManifestList parse reg ref platformImages ≠ none) ∧
    (∀ manifests : List ManifestDesc,
      ∀ k ∈ (Client.extractPlatformDigests manifests).map Prod.fst,
        '/' ∈ k.toList) := by
  refine ⟨?_, ?_, fun manifests => extractPlatformDigests_keys_slash manifests⟩
  · intro platformImages hp hbad
    simp [Client.PushManifestList, hp, assembleIndex_eq_none hbad]
  · intro platformImages hgood
    obtain ⟨idx, hidx⟩ := assembleIndex_isSome hgood
    cases hp : parse ref with
    | false => simp [Client.PushManifestList, hp]
    | true =>
      cases hw : reg.writeIndex ref idx with
      | ok u => simp [Client.PushManifestList, hp, hidx, hw]
      | error e => simp [Client.PushManifestList, hp, hidx, hw]

/-- Concrete instantiations discharging
pushManifestList_key_precondition's hypotheses: a key without '/' panics,
the keys "linux/amd64" and "linux/arm64" never do. -/
theorem pushManifestList_key_precondition_witness :
    Client.PushManifestList (fun _ => true) regDown "ghcr.io/a/b:v1"
      [("noslash", { content := "c" })] = none ∧
    Client.PushManifestList (fun _ => true) regDown "ghcr.io/a/b:v1"
      [("linux/amd64", { content := "a" }), ("linux/arm64", { content := "b" })] ≠
      none :=
  ⟨(pushManifestList_key_precondition (fun _ => true) regDown "ghcr.io/a/b:v1").1
      [("noslash", { content := "c" })] rfl ⟨"noslash", by simp, by decide⟩,
   (pushManifestList_key_precondition (fun _ => true) regDown "ghcr.io/a/b:v1").2.1
      [("linux/amd64", { content := "a" }), ("linux/arm64", { content := "b" })]
      (by decide)⟩

/-! ## C2: deterministic manifest-list assembly -/

theorem sortStrings_eq_of_perm {l1 l2 : List String} (h : l1.Perm l2) :
    Client.sortStrings l1 = Client.sortStrings l2 := by
  have htrans : ∀ a b c : String,
      decide (a ≤ b) = true → decide (b ≤ c) = true → decide (a ≤ c) = true := by
    intro a b c hab hbc
    simp only [decide_eq_true_eq] at hab hbc ⊢
    exact le_trans hab hbc
  have htotal : ∀ a b : String, (decide (a ≤ b) || decide (b ≤ a)) = true := by
    intro a b
    simpa using le_total a b
  apply List.eq_of_perm_of_sorted (r := (· ≤ · : String → String → Prop))
  · exact ((List.mergeSort_perm l1 _).trans h).trans (List.mergeSort_perm l2 _).symm
  · exact (List.sorted_mergeSort htrans htotal l1).imp (by simp)
  · exact (List.sorted_mergeSort htrans htotal l2).imp (by simp)

theorem sortStrings_sorted (l : List String) :
    (Client.sortStrings l).Sorted (· ≤ ·) := by
  have htrans : ∀ a b c : String,
      decide (a ≤ b) = true → decide (b ≤ c) = true → decide (a ≤ c) = true := by
    intro a b c hab hbc
    simp only [decide_eq_true_eq] at hab hbc ⊢
    exact le_trans hab hbc
  have htotal : ∀ a b : String, (decide (a ≤ b) || decide (b ≤ a)) = true := by
    intro a b
    simpa using le_total a b
  exact (List.sorted_mergeSort htrans htotal l).imp (by simp)

/-- Looking a key up in a duplicate-free association list is invariant
under permutation (Go map lookups do not depend on iteration order). -/
theorem lookup_eq_of_perm {β : Type} {m1 m2 : List (String × β)}
    (h : m1.Perm m2) :
    (m1.map Prod.fst).Nodup → ∀ k, m1.lookup k = m2.lookup k := by
  induction h with
  | nil => intro _ _; rfl
  | cons p h ih =>
    intro nd k
    obtain ⟨a, b⟩ := p
    simp only [List.map_cons, List.nodup_cons] at nd
    by_cases hk : (k == a) = true
    · simp [List.lookup, hk]
    · simp only [List.lookup, hk]
      exact ih nd.2 k
  | swap x y l =>
    intro nd k
    obtain ⟨a, b⟩ := y
    obtain ⟨c, d⟩ := x
    simp only [List.map_cons, List.nodup_cons, List.mem_cons, not_or] at nd
    by_cases hk1 : (k == a) = true
    · have hne : ¬ (k == c) = true := by
        intro hk2
        exact nd.1.1 ((eq_of_beq hk1).symm.trans (eq_of_beq hk2))
      simp [List.lookup, hk1, hne]
    · by_cases hk2 : (k == c) = true
      · simp [List.lookup, hk1, hk2]
      · simp [List.lookup, hk1, hk2]
  | trans h1 h2 ih1 ih2 =>
    intro nd k
    have nd2 := ((h1.map Prod.fst).nodup_iff).mp nd
    exact (ih1 nd k).trans (ih2 nd2 k)

theorem splitFirstAt_reconstruct {sep : Char} :
    ∀ {l a b : List Char}, splitFirstAt sep l = some (a, b) → l = a ++ sep :: b := by
  intro l
  induction l with
  | nil => intro a b h; simp [splitFirstAt] at h
  | cons c rest ih =>
    intro a b h
    simp only [splitFirstAt] at h
    by_cases hc : c = sep
    · rw [if_pos hc] at h
      cases h
      simp [hc]
    · rw [if_neg hc] at h
      cases hsp : splitFirstAt sep rest with
      | none => rw [hsp] at h; cases h
      | some pr =>
        obtain ⟨a2, b2⟩ := pr
        rw [hsp] at h
        cases h
        rw [List.cons_append]
        exact congrArg (c :: ·) (ih hsp)

/-- The platform key is recoverable from the index entry appended for it:
entries are appended under exactly their platform key. -/
theorem platformEntry_recombine {k : String} {img : Image} {e : IndexEntry}
    (h : Client.platformEntry k img = some e) :
    e.os ++ "/" ++ e.architecture = k := by
  unfold Client.platformEntry goSplitN2 at h
  cases hsp : splitFirstAt '/' k.toList with
  | none => rw [hsp] at h; cases h
  | some pr =>
    obtain ⟨a, b⟩ := pr
    rw [hsp] at h
    cases h
    have hk : k.data = a ++ '/' :: b := splitFirstAt_reconstruct hsp
    apply String.ext
    simp [String.data_append, hk]
    rfl

theorem foldlM_appendPlatform_entries (m : List (String × Image)) :
    ∀ (l : List String) (idx0 r : ImageIndex),
      l.foldlM (Client.appendPlatform m) idx0 = some r →
      r.entries.map (fun e => e.os ++ "/" ++ e.architecture) =
        idx0.entries.map (fun e => e.os ++ "/" ++ e.architecture) ++ l := by
  intro l
  induction l with
  | nil =>
    intro idx0 r h
    cases h
    simp
  | cons a t ih =>
    intro idx0 r h
    rw [List.foldlM_cons] at h
    cases hstep : Client.appendPlatform m idx0 a with
    | none =>
      rw [hstep] at h
      cases h
    | some b =>
      rw [hstep] at h
      have h2 : t.foldlM (Client.appendPlatform m) b = some r := h
      have hb := ih b r h2
      obtain ⟨e, he, rfl⟩ : ∃ e,
          Client.platformEntry a ((m.lookup a).getD { content := "" }) = some e ∧
          b = { mediaType := idx0.mediaType, entries := idx0.entries ++ [e] } := by
        unfold Client.appendPlatform at hstep
        cases hpe : Client.platformEntry a ((m.lookup a).getD { content := "" }) with
        | none => rw [hpe] at hstep; cases hstep
        | some e2 =>
          rw [hpe] at hstep
          cases hstep
          exact ⟨e2, rfl, rfl⟩
      rw [hb]
      simp [platformEntry_recombine he]

/-- C2: PushManifestList appends index entries in lexicographically sorted
order of the platform key, so two runs over the same platform map — in any
iteration order — assemble identical index content and return equal
digests. -/
theorem pushManifestList_deterministic
    (parse : String → Bool) (reg : RemoteRegistry) (ref : String)
    (m1 m2 : List (String × Image)) (hperm : m1.Perm m2)
    (hnd : (m1.map Prod.fst).Nodup) :
    Client.assembleIndex m1 = Client.assembleIndex m2 ∧
    Client.PushManifestList parse reg ref m1 =
      Client.PushManifestList parse reg ref m2 ∧
    (∀ idx, Client.assembleIndex m1 = some idx →
      idx.entries.map (fun e => e.os ++ "/" ++ e.architecture) =
        Client.sortStrings (m1.map Prod.fst) ∧
      (idx.entries.map (fun e => e.os ++ "/" ++ e.architecture)).Sorted
        (· ≤ ·)) := by
  have hassemble : Client.assembleIndex m1 = Client.assembleIndex m2 := by
    have hfun : Client.appendPlatform m1 = Client.appendPlatform m2 := by
      funext idx k
      unfold Client.appendPlatform
      rw [lookup_eq_of_perm hperm hnd k]
    have hkeys : Client.sortStrings (m1.map Prod.fst) =
        Client.sortStrings (m2.map Prod.fst) :=
      sortStrings_eq_of_perm (hperm.map Prod.fst)
    unfold Client.assembleIndex
    rw [hkeys, hfun]
  refine ⟨hassemble, ?_, ?_⟩
  · unfold Client.PushManifestList
    rw [hassemble]
  · intro idx hidx
    have hentries := foldlM_appendPlatform_entries m1
      (Client.sortStrings (m1.map Prod.fst)) emptyIndexDockerList idx hidx
    simp only [emptyIndexDockerList, List.map_nil, List.nil_append] at hentries
    exact ⟨hentries, hentries ▸ sortStrings_sorted (m1.map Prod.fst)⟩

/-- Concrete instantiation discharging pushManifestList_deterministic's
hypotheses: the two iteration orders of a two-platform map push the same
content. -/
theorem pushManifestList_deterministic_witness :
    Client.PushManifestList (fun _ => true) regDown "ghcr.io/a/b:v1"
      [("linux/arm64", { content := "b" }), ("linux/amd64", { content := "a" })] =
    Client.PushManifestList (fun _ => true) regDown "ghcr.io/a/b:v1"
      [("linux/amd64", { content := "a" }), ("linux/arm64", { content := "b" })] :=
  (pushManifestList_deterministic (fun _ => true) regDown "ghcr.io/a/b:v1"
    [("linux/arm64", { content := "b" }), ("linux/amd64", { content := "a" })]
    [("linux/amd64", { content := "a" }), ("linux/arm64", { content := "b" })]
    (by decide) (by decide)).2.1

/-! ## Trace lemmas: the platform-fetch phase never writes -/

theorem GetPlatformDigests_no_write (parse : String → Bool) (reg : RemoteRegistry)
    (ref r : String) :
    NetOp.write r ∉ (Client.GetPlatformDigests parse reg ref).2 := by
  unfold Client.GetPlatformDigests
  cases hp : parse ref with
  | false => simp
  | true => cases hg : reg.index ref <;> simp [hg]

theorem FetchPlatformImage_no_write (parse : String → Bool) (reg : RemoteRegistry)
    (srcRef dgst r : String) :
    NetOp.write r ∉ (Client.FetchPlatformImage parse reg srcRef dgst).2 := by
  unfold Client.FetchPlatformImage
  cases hp : parse (srcRef ++ "@" ++ dgst) with
  | false => simp [hp]
  | true => cases hg : reg.image (srcRef ++ "@" ++ dgst) <;> simp [hp, hg]

theorem fetchPlatforms_no_write (syncer : Syncer) (srcImage : String) :
    ∀ (entries : List (String × String)) (r : String),
      NetOp.write r ∉ (fetchPlatforms syncer srcImage entries).2 := by
  intro entries
  induction entries with
  | nil => intro r; simp [fetchPlatforms]
  | cons e rest ih =>
    intro r
    obtain ⟨p, dg⟩ := e
    simp only [fetchPlatforms]
    by_cases hs : supportedPlatforms.contains p = true
    · rw [if_pos hs]
      cases hf : Client.FetchPlatformImage syncer.parse syncer.src
          (stripTag srcImage) dg with
      | mk res tf =>
        have hnw : NetOp.write r ∉ tf := by
          have := FetchPlatformImage_no_write syncer.parse syncer.src
            (stripTag srcImage) dg r
          rw [hf] at this
          exact this
        cases res with
        | error err => simpa using hnw
        | ok img =>
          cases hrest : fetchPlatforms syncer srcImage rest with
          | mk res2 t2 =>
            have hnw2 : NetOp.write r ∉ t2 := by
              have := ih r
              rw [hrest] at this
              exact this
            cases res2 with
            | error err => simp [List.mem_append, hnw, hnw2]
            | ok imgs => simp [List.mem_append, hnw, hnw2]
    · rw [if_neg hs]
      exact ih r

/-! ## The platform loop: failure and success characterizations -/

/-- If fetching any retained (allow-listed) platform fails, the platform
loop aborts with an error, whatever the iteration order. -/
theorem fetchPlatforms_error_of_failed_fetch (syncer : Syncer) (srcImage : String) :
    ∀ entries : List (String × String),
      (∃ p dg, (p, dg) ∈ entries ∧ supportedPlatforms.contains p = true ∧
        ∃ e, (Client.FetchPlatformImage syncer.parse syncer.src
          (stripTag srcImage) dg).1 = .error e) →
      ∃ err, (fetchPlatforms syncer srcImage entries).1 = .error err := by
  intro entries
  induction entries with
  | nil =>
    rintro ⟨p, dg, hmem, _, _⟩
    simp at hmem
  | cons e rest ih =>
    rintro ⟨p, dg, hmem, hsup, err, herr⟩
    obtain ⟨q, dq⟩ := e
    simp only [fetchPlatforms]
    by_cases hqs : supportedPlatforms.contains q = true
    · rw [if_pos hqs]
      cases hf : Client.FetchPlatformImage syncer.parse syncer.src
          (stripTag srcImage) dq with
      | mk res tf =>
        cases res with
        | error e2 => exact ⟨.fetchPlatform q e2, rfl⟩
        | ok img =>
          have hmem2 : (p, dg) ∈ rest := by
            rcases List.mem_cons.mp hmem with heq | h2
            · have h1 : p = q := congrArg Prod.fst heq
              have h2 : dg = dq := congrArg Prod.snd heq
              subst h1
              subst h2
              rw [hf] at herr
              cases herr
            · exact h2
          obtain ⟨err2, herr2⟩ := ih ⟨p, dg, hmem2, hsup, err, herr⟩
          cases hrest : fetchPlatforms syncer srcImage rest with
          | mk res2 t2 =>
            rw [hrest] at herr2
            cases res2 with
            | error e3 => exact ⟨e3, rfl⟩
            | ok imgs => cases herr2
    · rw [if_neg hqs]
      have hmem2 : (p, dg) ∈ rest := by
        rcases List.mem_cons.mp hmem with heq | h2
        · have h1 : p = q := congrArg Prod.fst heq
          subst h1
          exact absurd hsup hqs
        · exact h2
      exact ih ⟨p, dg, hmem2, hsup, err, herr⟩

/-- If every retained platform's fetch succeeds, the platform loop
succeeds and collects exactly the allow-listed platforms, in iteration
order, skipping the rest without error. -/
theorem fetchPlatforms_ok_of_all_fetch_ok (syncer : Syncer) (srcImage : String) :
    ∀ entries : List (String × String),
      (∀ p dg, (p, dg) ∈ entries → supportedPlatforms.contains p = true →
        ∃ img, (Client.FetchPlatformImage syncer.parse syncer.src
          (stripTag srcImage) dg).1 = .ok img) →
      ∃ imgs t, fetchPlatforms syncer srcImage entries = (.ok imgs, t) ∧
        imgs.map Prod.fst =
          (entries.map Prod.fst).filter (fun p => supportedPlatforms.contains p) := by
  intro entries
  induction entries with
  | nil => intro _; exact ⟨[], [], rfl, rfl⟩
  | cons e rest ih =>
    intro h
    obtain ⟨q, dq⟩ := e
    obtain ⟨imgs, t2, hrest, hkeys⟩ :=
      ih (fun p dg hm hs => h p dg (List.mem_cons_of_mem _ hm) hs)
    simp only [fetchPlatforms]
    by_cases hqs : supportedPlatforms.contains q = true
    · obtain ⟨img, himg⟩ := h q dq (by simp) hqs
      rw [if_pos hqs]
      cases hf : Client.FetchPlatformImage syncer.parse syncer.src
          (stripTag srcImage) dq with
      | mk res tf =>
        rw [hf] at himg
        cases res with
        | error e2 => cases himg
        | ok img2 =>
          rw [hrest]
          refine ⟨(q, img2) :: imgs, tf ++ t2, rfl, ?_⟩
          have hqm : q ∈ supportedPlatforms := by simpa using hqs
          simp [List.filter_cons, hqm, hkeys]
    · rw [if_neg hqs]
      refine ⟨imgs, t2, hrest, ?_⟩
      have hqm : q ∉ supportedPlatforms := by simpa using hqs
      simp [List.filter_cons, hqm, hkeys]

/-! ## C4: no partial destination state on a failed multi-platform sync -/

/-- C4: in the multi-platform flow, a write to the destination occurs only
after the platform-digest read and every retained platform fetch have
succeeded; and if fetching any retained platform fails (in whatever
iteration order the platform map is walked), the sync returns an error
with no destination write in its trace. -/
theorem syncMultiPlatform_no_partial_state (syncer : Syncer)
    (reorder : List (String × String) → List (String × String))
    (srcImage dstImage : String) :
    (∀ res t, syncMultiPlatform syncer reorder srcImage dstImage = some (res, t) →
      ∀ r, NetOp.write r ∈ t →
        ∃ pd tp imgs tf,
          Client.GetPlatformDigests syncer.parse syncer.src srcImage =
            (.ok pd, tp) ∧
          fetchPlatforms syncer srcImage (reorder pd) = (.ok imgs, tf)) ∧
    (∀ pd tp,
      Client.GetPlatformDigests syncer.parse syncer.src srcImage = (.ok pd, tp) →
      (∃ p dg, (p, dg) ∈ reorder pd ∧ supportedPlatforms.contains p = true ∧
        ∃ e, (Client.FetchPlatformImage syncer.parse syncer.src
          (stripTag srcImage) dg).1 = .error e) →
      ∃ err t, syncMultiPlatform syncer reorder srcImage dstImage =
          some (.error err, t) ∧ ∀ r, NetOp.write r ∉ t) := by
  constructor
  · intro res t hrun r hw
    unfold syncMultiPlatform at hrun
    cases hpd : Client.GetPlatformDigests syncer.parse syncer.src srcImage with
    | mk res1 tp =>
      rw [hpd] at hrun
      cases res1 with
      | error e =>
        dsimp only at hrun
        cases hrun
        have := GetPlatformDigests_no_write syncer.parse syncer.src srcImage r
        rw [hpd] at this
        exact absurd hw this
      | ok pd =>
        dsimp only at hrun
        cases hfp : fetchPlatforms syncer srcImage (reorder pd) with
        | mk res2 tf =>
          rw [hfp] at hrun
          cases res2 with
          | error e =>
            cases hrun
            have h1 := GetPlatformDigests_no_write syncer.parse syncer.src srcImage r
            rw [hpd] at h1
            have h2 := fetchPlatforms_no_write syncer srcImage (reorder pd) r
            rw [hfp] at h2
            rcases List.mem_append.mp hw with hw1 | hw2
            · exact absurd hw1 h1
            · exact absurd hw2 h2
          | ok imgs => exact ⟨pd, tp, imgs, tf, rfl, hfp⟩
  · intro pd tp hpd hfail
    obtain ⟨err, herr⟩ :=
      fetchPlatforms_error_of_failed_fetch syncer srcImage (reorder pd) hfail
    cases hfp : fetchPlatforms syncer srcImage (reorder pd) with
    | mk res2 tf =>
      rw [hfp] at herr
      cases res2 with
      | ok imgs => cases herr
      | error e =>
        cases herr
        refine ⟨err, tp ++ tf, ?_, ?_⟩
        · unfold syncMultiPlatform
          rw [hpd]
          dsimp only
          rw [hfp]
        · intro r
          have h1 := GetPlatformDigests_no_write syncer.parse syncer.src srcImage r
          rw [hpd] at h1
          have h2 := fetchPlatforms_no_write syncer srcImage (reorder pd) r
          rw [hfp] at h2
          intro hw
          rcases List.mem_append.mp hw with hw1 | hw2
          · exact absurd hw1 h1
          · exact absurd hw2 h2

/-- Concrete instantiation discharging
syncMultiPlatform_no_partial_state's hypotheses: with the arm64 fetch
broken, the sync fails and its trace contains no destination write. -/
theorem syncMultiPlatform_no_partial_state_witness :
    ∃ err t,
      syncMultiPlatform { parse := fun _ => true, src := srcArmBroken, dst := regDown }
          id "src/app:v1" "dst/app:v1" = some (.error err, t) ∧
        ∀ r, NetOp.write r ∉ t :=
  (syncMultiPlatform_no_partial_state
      { parse := fun _ => true, src := srcArmBroken, dst := regDown }
      id "src/app:v1" "dst/app:v1").2
    (Client.extractPlatformDigests
      [ { platform := some { os := "linux", architecture := "amd64" },
          digest := "sha256:d1" },
        { platform := some { os := "linux", architecture := "arm64" },
          digest := "sha256:d2" },
        { platform := some { os := "linux", architecture := "386" },
          digest := "sha256:d3" },
        { platform := some { os := "windows", architecture := "amd64" },
          digest := "sha256:d4" } ])
    [.read "src/app:v1"] rfl
    ⟨"linux/arm64", "sha256:d2", by decide, by decide,
      .getSourceImage (.network "timeout"), rfl⟩

/-! ## C5: default allow-list platform filtering -/

/-- C5: the default allow-list is exactly {linux/amd64, linux/arm64}; for
any iteration order of the source's platform map, when every retained
platform fetch succeeds the loop collects exactly the allow-listed
platforms present in the source (all others are skipped without error);
and the assembled destination manifest list contains exactly the
collected platforms, in sorted order. -/
theorem syncMultiPlatform_platform_filtering (syncer : Syncer)
    (srcImage : String) :
    supportedPlatforms = ["linux/amd64", "linux/arm64"] ∧
    (∀ entries : List (String × String),
      (∀ p dg, (p, dg) ∈ entries → supportedPlatforms.contains p = true →
        ∃ img, (Client.FetchPlatformImage syncer.parse syncer.src
          (stripTag srcImage) dg).1 = .ok img) →
      ∃ imgs t, fetchPlatforms syncer srcImage entries = (.ok imgs, t) ∧
        imgs.map Prod.fst =
          (entries.map Prod.fst).filter
            (fun p => supportedPlatforms.contains p)) ∧
    (∀ (imgs : List (String × Image)) (idx : ImageIndex),
      Client.assembleIndex imgs = some idx →
      idx.entries.map (fun e => e.os ++ "/" ++ e.architecture) =
        Client.sortStrings (imgs.map Prod.fst)) := by
  refine ⟨rfl, fetchPlatforms_ok_of_all_fetch_ok syncer srcImage, ?_⟩
  intro imgs idx hidx
  have h := foldlM_appendPlatform_entries imgs
    (Client.sortStrings (imgs.map Prod.fst)) emptyIndexDockerList idx hidx
  simpa [emptyIndexDockerList] using h

/-- Concrete instantiation discharging
syncMultiPlatform_platform_filtering's hypotheses: from the platform set
{linux/amd64, linux/arm64, linux/386, windows/amd64} exactly linux/amd64
and linux/arm64 are collected, without error. -/
theorem syncMultiPlatform_platform_filtering_witness :
    ∃ imgs t,
      fetchPlatforms { parse := fun _ => true, src := srcAllOk, dst := regDown }
          "src/app:v1"
          [("linux/amd64", "sha256:d1"), ("linux/arm64", "sha256:d2"),
           ("linux/386", "sha256:d3"), ("windows/amd64", "sha256:d4")] =
        (.ok imgs, t) ∧
      imgs.map Prod.fst = ["linux/amd64", "linux/arm64"] := by
  obtain ⟨imgs, t, hrun, hkeys⟩ :=
    (syncMultiPlatform_platform_filtering
        { parse := fun _ => true, src := srcAllOk, dst := regDown }
        "src/app:v1").2.1
      [("linux/amd64", "sha256:d1"), ("linux/arm64", "sha256:d2"),
       ("linux/386", "sha256:d3"), ("windows/amd64", "sha256:d4")]
      (fun p dg hmem hsup => ⟨{ content := "src/app" ++ "@" ++ dg }, rfl⟩)
  exact ⟨imgs, t, hrun, by rw [hkeys]; rfl⟩

/-! ## C3: digest locality — the result never depends on the destination -/

/-- The platform-fetch loop reads only from the source registry: its
outcome is unchanged when the destination registry's behavior changes. -/
theorem fetchPlatforms_dst_invariant (parse : String → Bool)
    (src d1 d2 : RemoteRegistry) (srcImage : String) :
    ∀ entries : List (String × String),
      fetchPlatforms { parse := parse, src := src, dst := d1 } srcImage entries =
      fetchPlatforms { parse := parse, src := src, dst := d2 } srcImage entries := by
  intro entries
  induction entries with
  | nil => rfl
  | cons e rest ih =>
    obtain ⟨q, dq⟩ := e
    simp only [fetchPlatforms]
    rw [ih]

theorem syncSinglePlatform_ok_digest {syncer : Syncer}
    {srcImage dstImage dg : String} {t : List NetOp}
    (h : syncSinglePlatform syncer srcImage dstImage = (.ok dg, t)) :
    ∃ img, syncer.src.image srcImage = .ok img ∧ dg = img.digestOf := by
  unfold syncSinglePlatform at h
  cases hc : Client.CopyImage syncer.parse syncer.src srcImage dstImage syncer.dst with
  | mk res t0 =>
    rw [hc] at h
    cases res with
    | error e => cases h
    | ok img =>
      refine ⟨img, ?_, by cases h; rfl⟩
      unfold Client.CopyImage at hc
      split at hc
      · cases hc
      · split at hc
        · cases hc
        · cases himg : syncer.src.image srcImage with
          | error e2 => rw [himg] at hc; cases hc
          | ok img2 =>
            rw [himg] at hc
            dsimp only at hc
            cases hw : syncer.dst.write dstImage img2 with
            | error e3 => rw [hw] at hc; cases hc
            | ok u =>
              rw [hw] at hc
              cases hc
              rfl

theorem syncMultiPlatform_ok_digest {syncer : Syncer}
    {reorder : List (String × String) → List (String × String)}
    {srcImage dstImage dg : String} {t : List NetOp}
    (h : syncMultiPlatform syncer reorder srcImage dstImage = some (.ok dg, t)) :
    ∃ pd tp imgs tf idx,
      Client.GetPlatformDigests syncer.parse syncer.src srcImage = (.ok pd, tp) ∧
      fetchPlatforms syncer srcImage (reorder pd) = (.ok imgs, tf) ∧
      Client.assembleIndex imgs = some idx ∧ dg = idx.digestOf := by
  unfold syncMultiPlatform at h
  cases hpd : Client.GetPlatformDigests syncer.parse syncer.src srcImage with
  | mk res1 tp =>
    rw [hpd] at h
    cases res1 with
    | error e => cases h
    | ok pd =>
      dsimp only at h
      cases hfp : fetchPlatforms syncer srcImage (reorder pd) with
      | mk res2 tf =>
        rw [hfp] at h
        cases res2 with
        | error e => cases h
        | ok imgs =>
          dsimp only at h
          cases hpm : Client.PushManifestList syncer.parse syncer.dst dstImage imgs with
          | none => rw [hpm] at h; cases h
          | some p =>
            obtain ⟨res3, t3⟩ := p
            rw [hpm] at h
            cases res3 with
            | error e => cases h
            | ok dg2 =>
              have hdg : dg2 = dg := by cases h; rfl
              subst hdg
              unfold Client.PushManifestList at hpm
              split at hpm
              · cases hidx : Client.assembleIndex imgs with
                | none => rw [hidx] at hpm; cases hpm
                | some idx =>
                  rw [hidx] at hpm
                  dsimp only at hpm
                  cases hw : syncer.dst.writeIndex dstImage idx with
                  | error e4 => rw [hw] at hpm; cases hpm
                  | ok u =>
                    rw [hw] at hpm
                    cases hpm
                    exact ⟨pd, tp, imgs, tf, idx, rfl, hfp, hidx, rfl⟩
              · cases hpm

theorem syncImage_ok_characterization {syncer : Syncer}
    {reorder : List (String × String) → List (String × String)}
    {srcImage dstImage dg : String} {t : List NetOp}
    (h : SyncImage syncer reorder srcImage dstImage = some (.ok dg, t)) :
    ∃ desc t0,
      Client.GetImage syncer.parse syncer.src srcImage = (.ok desc, t0) ∧
      ((desc.mediaType.isIndex = false ∧
        ∃ img, syncer.src.image srcImage = .ok img ∧ dg = img.digestOf) ∨
       (desc.mediaType.isIndex = true ∧
        ∃ pd tp imgs tf idx,
          Client.GetPlatformDigests syncer.parse syncer.src srcImage =
            (.ok pd, tp) ∧
          fetchPlatforms syncer srcImage (reorder pd) = (.ok imgs, tf) ∧
          Client.assembleIndex imgs = some idx ∧ dg = idx.digestOf)) := by
  unfold SyncImage at h
  cases hg : Client.GetImage syncer.parse syncer.src srcImage with
  | mk res t0 =>
    rw [hg] at h
    cases res with
    | error e => cases h
    | ok desc =>
      dsimp only at h
      refine ⟨desc, t0, rfl, ?_⟩
      cases hidx : desc.mediaType.isIndex with
      | false =>
        rw [hidx] at h
        simp only [Bool.false_eq_true, if_false] at h
        left
        refine ⟨rfl, ?_⟩
        cases hs : syncSinglePlatform syncer srcImage dstImage with
        | mk res2 t2 =>
          rw [hs] at h
          cases res2 with
          | error e => cases h
          | ok dg2 =>
            have : dg2 = dg := by cases h; rfl
            subst this
            exact syncSinglePlatform_ok_digest hs
      | true =>
        rw [hidx] at h
        simp only [if_true] at h
        right
        refine ⟨rfl, ?_⟩
        cases hm : syncMultiPlatform syncer reorder srcImage dstImage with
        | none => rw [hm] at h; cases h
        | some p =>
          obtain ⟨res2, t2⟩ := p
          rw [hm] at h
          cases res2 with
          | error e => cases h
          | ok dg2 =>
            have : dg2 = dg := by cases h; rfl
            subst this
            exact syncMultiPlatform_ok_digest hm

/-- C3: the digest returned by a successful SyncImage is computed
exclusively from content fetched (by digest) from the source registry:
two successful runs against arbitrary, different destination registries —
every destination response altered — return the same digest. -/
theorem syncImage_digest_locality (parse : String → Bool)
    (src dst1 dst2 : RemoteRegistry)
    (reorder : List (String × String) → List (String × String))
    (srcImage dstImage d1 d2 : String) (t1 t2 : List NetOp)
    (h1 : SyncImage { parse := parse, src := src, dst := dst1 } reorder
        srcImage dstImage = some (.ok d1, t1))
    (h2 : SyncImage { parse := parse, src := src, dst := dst2 } reorder
        srcImage dstImage = some (.ok d2, t2)) :
    d1 = d2 := by
  obtain ⟨desc1, t01, hg1, hbr1⟩ := syncImage_ok_characterization h1
  obtain ⟨desc2, t02, hg2, hbr2⟩ := syncImage_ok_characterization h2
  have hdesc : desc1 = desc2 := by
    have h12 := hg1.symm.trans hg2
    exact Except.ok.inj (congrArg Prod.fst h12)
  subst hdesc
  rcases hbr1 with ⟨hix1, img1, himg1, hd1⟩ | ⟨hix1, pd1, tp1, imgs1, tf1, idx1, hpd1, hfp1, hidx1, hd1⟩
  · rcases hbr2 with ⟨hix2, img2, himg2, hd2⟩ | ⟨hix2, _, _, _, _, _, _, _, _, _⟩
    · have : img1 = img2 := by
        have := himg1.symm.trans himg2
        exact Except.ok.inj this
      rw [hd1, hd2, this]
    · rw [hix1] at hix2
      cases hix2
  · rcases hbr2 with ⟨hix2, _, _, _⟩ | ⟨hix2, pd2, tp2, imgs2, tf2, idx2, hpd2, hfp2, hidx2, hd2⟩
    · rw [hix1] at hix2
      cases hix2
    · have hpd : pd1 = pd2 := by
        have := hpd1.symm.trans hpd2
        exact Except.ok.inj (congrArg Prod.fst this)
      subst hpd
      have himgs : imgs1 = imgs2 := by
        have hinv := fetchPlatforms_dst_invariant parse src dst1 dst2 srcImage
          (reorder pd1)
        rw [hfp1] at hinv
        rw [hfp2] at hinv
        exact Except.ok.inj (congrArg Prod.fst hinv)
      subst himgs
      have hidx : idx1 = idx2 := by
        have := hidx1.symm.trans hidx2
        exact Option.some.inj this
      rw [hd1, hd2, hidx]

/-- Concrete instantiation discharging syncImage_digest_locality's
hypotheses: two successful runs, against an honest and a fully tampered
destination, report the same digest. -/
theorem syncImage_digest_locality_witness : ("sha256:C" : String) = "sha256:C" :=
  syncImage_digest_locality (fun _ => true) srcSingle dstHonest dstTampered id
    "src/app@sha256:s" "dst/app:v1" "sha256:C" "sha256:C"
    [.read "src/app@sha256:s", .read "src/app@sha256:s", .write "dst/app:v1"]
    [.read "src/app@sha256:s", .read "src/app@sha256:s", .write "dst/app:v1"]
    rfl rfl

/-! ## C1: the source-digest precondition -/

/-- C1 counterexample: Syncer.SyncImage itself performs no digest check —
called directly with a source reference carrying no digest (no '@'), it
does not fail with a SourceDigestRequired error and it performs network
calls: with a single-platform source it simply succeeds after one source
read, another source read and one destination write. -/
theorem syncImage_missing_digest_counterexample :
    goContainsChar "docker.io/library/ubuntu:latest" '@' = false ∧
    SyncImage { parse := fun _ => true, src := srcSingle, dst := dstHonest } id
        "docker.io/library/ubuntu:latest" "dst/app:v1" =
      some (.ok "sha256:C",
        [.read "docker.io/library/ubuntu:latest",
         .read "docker.io/library/ubuntu:latest",
         .write "dst/app:v1"]) :=
  ⟨by decide, rfl⟩

/-- C1 (amended): the source-digest precondition is enforced one layer up,
in SyncBuilder.Build, before anything executes: Build on a sync whose
source image lacks a digest fails with ErrSyncSourceDigestRequired (so the
sync is never added to the plan and no network call is ever made for it),
and every sync Build does record carries a digest-qualified source. -/
theorem Build_enforces_source_digest :
    (∀ (plan : SdkPlan) (sync : SyncSpec) (img : SdkImage),
      sync.sourceImage = some img → img.digest = "" →
      SyncBuilder.Build plan sync = .error (.syncSourceDigestRequired img.name)) ∧
    (∀ (plan : SdkPlan) (sync : SyncSpec) (p2 : SdkPlan) (s2 : SyncSpec),
      SyncBuilder.Build plan sync = .ok (p2, s2) →
      ∃ img, s2.sourceImage = some img ∧ img.digest ≠ "") := by
  constructor
  · intro plan sync img hsrc hd
    unfold SyncBuilder.Build
    rw [hsrc]
    dsimp only
    rw [if_pos hd]
  · intro plan sync p2 s2 h
    unfold SyncBuilder.Build at h
    cases hsrc : sync.sourceImage with
    | none => rw [hsrc] at h; cases h
    | some img =>
      rw [hsrc] at h
      dsimp only at h
      by_cases hd : img.digest = ""
      · rw [if_pos hd] at h
        cases h
      · rw [if_neg hd] at h
        cases hdst : sync.destImage with
        | none => rw [hdst] at h; cases h
        | some dimg =>
          rw [hdst] at h
          dsimp only at h
          by_cases hpl : sync.platforms.isEmpty
          · rw [if_pos hpl] at h
            cases h
            exact ⟨img, rfl, hd⟩
          · rw [if_neg hpl] at h
            cases h
            exact ⟨img, hsrc, hd⟩

/-- Concrete instantiations discharging Build_enforces_source_digest's
hypotheses: a digestless source is rejected with
ErrSyncSourceDigestRequired; a digest-qualified one is recorded. -/
theorem Build_enforces_source_digest_witness :
    SyncBuilder.Build { syncs := [] }
      { sourceImage := some
          { name := "alpine", domain := "docker.io", version := "3.20",
            digest := "" },
        destImage := some
          { name := "my-org/alpine", domain := "ghcr.io", version := "3.20",
            digest := "" },
        platforms := [] } =
      .error (.syncSourceDigestRequired "alpine") ∧
    ∃ img,
      (some { name := "alpine", domain := "docker.io", version := "3.20",
              digest := "sha256:abc" } : Option SdkImage) = some img ∧
      img.digest ≠ "" := by
  constructor
  · exact Build_enforces_source_digest.1 { syncs := [] }
      { sourceImage := some
          { name := "alpine", domain := "docker.io", version := "3.20",
            digest := "" },
        destImage := some
          { name := "my-org/alpine", domain := "ghcr.io", version := "3.20",
            digest := "" },
        platforms := [] }
      { name := "alpine", domain := "docker.io", version := "3.20",
        digest := "" } rfl rfl
  · exact Build_enforces_source_digest.2 { syncs := [] }
      { sourceImage := some
          { name := "alpine", domain := "docker.io", version := "3.20",
            digest := "sha256:abc" },
        destImage := some
          { name := "my-org/alpine", domain := "ghcr.io", version := "3.20",
            digest := "" },
        platforms := [] }
      _ _ rfl

end Quark
